import Mathlib

/-!
Verification of the megaforwarder oracle node against its natural-language
specification.  The development shallowly embeds the parts of the TypeScript
source that the checked claims are about:

* the binary codec (`src/util/encoder.ts`),
* the crypto helpers and the `/task/validate` route (`src/util/crypto.ts`,
  `src/routes/taskValidate.ts`),
* the task coordinator (`src/core/task/Task.ts`),
* the EVM listener reaction to task results (`src/listeners/EVMListener.ts`),
* the ERC20 forwarder execute phase (`src/plugins/ERC20Forwarder.ts`),
* the rate limiter retry helper (`src/util/throttle.ts`),
* the Helius webhook dispatch loop (`src/routes/heliusWebhook.ts`).

Buffers are modeled as `List Nat` of byte values; JS promises and awaits are
flattened into explicit environments recording the outcome of each external
call; fallible operations return `Option` or `Except`.
-/

namespace Codec

/-- The value grammar handled by the binary codec of `src/util/encoder.ts`.
JS strings are modeled by their UTF-8 byte sequences, JS numbers by integral
doubles (printed in decimal by `toString`), `Date` by its millisecond value,
and plain objects by association lists from UTF-8 key bytes to values. -/
inductive JsVal where
  | nul
  | undef
  | str (bytes : List Nat)
  | num (n : Int)
  | boolean (b : Bool)
  | bigint (n : Int)
  | buf (bytes : List Nat)
  | date (ms : Int)
  | arr (elems : List JsVal)
  | obj (fields : List ((List Nat) × JsVal))

/-- Little-endian base-10 digits, computed with explicit fuel so that it is
structurally recursive; with fuel at least `n` it agrees with `Nat.digits`. -/
def natDigitsFuel : Nat → Nat → List Nat
  | 0, _ => []
  | fuel + 1, n => if n = 0 then [] else n % 10 :: natDigitsFuel fuel (n / 10)

/-- ASCII decimal digits of a natural number, most significant first; this is
`n.toString()` for a non-negative integral JS number or bigint. -/
def natDecimal (n : Nat) : List Nat :=
  if n = 0 then [48] else ((natDigitsFuel n n).map (· + 48)).reverse

theorem natDigitsFuel_eq :
    ∀ (fuel n : Nat), n ≤ fuel → natDigitsFuel fuel n = Nat.digits 10 n := by
  intro fuel
  induction fuel with
  | zero =>
    intro n h
    have h0 : n = 0 := by omega
    subst h0
    simp [natDigitsFuel]
  | succ f ih =>
    intro n h
    by_cases h0 : n = 0
    · subst h0
      simp [natDigitsFuel]
    · have hdiv : n / 10 < n := Nat.div_lt_self (Nat.pos_of_ne_zero h0) (by norm_num)
      rw [natDigitsFuel, if_neg h0, ih (n / 10) (by omega),
        ← Nat.digits_def' (by norm_num : (1 : Nat) < 10) (Nat.pos_of_ne_zero h0)]

/-- `n.toString()` for an integral JS number or bigint, with a leading
minus sign (byte 45) for negative values. -/
def intDecimal : Int → List Nat
  | .ofNat n => natDecimal n
  | .negSucc m => 45 :: natDecimal (m + 1)

/-- Whether a byte is an ASCII decimal digit. -/
def isDigitByte (c : Nat) : Bool := 48 ≤ c && c ≤ 57

/-- Numeric value of a most-significant-first ASCII digit string. -/
def digitsVal (ds : List Nat) : Nat := ds.foldl (fun acc d => acc * 10 + (d - 48)) 0

/-- Parse an unsigned decimal numeral (`Number(text)` / `BigInt(text)` on the
texts produced by `toString`); fails on empty or non-digit input. -/
def parseNatDec (bs : List Nat) : Option Nat :=
  if bs ≠ [] ∧ bs.all isDigitByte then some (digitsVal bs) else none

/-- Parse a signed decimal numeral: a leading minus sign (byte 45) negates
the remainder. -/
def parseIntDec (bs : List Nat) : Option Int :=
  if bs.head? = some 45 then (parseNatDec bs.tail).map (fun n => -(n : Int))
  else (parseNatDec bs).map (fun n => (n : Int))

/-- The 4-byte big-endian length field (`writeUInt32BE`); the source throws
for values outside `[0, 2^32)`, so well-formed inputs are kept below `2^32`. -/
def u32be (n : Nat) : List Nat :=
  [n / 16777216 % 256, n / 65536 % 256, n / 256 % 256, n % 256]

/-- `readUInt32BE` at the head of a buffer; throws (here: `none`) when fewer
than four bytes remain. -/
def readU32 : List Nat → Option Nat
  | b0 :: b1 :: b2 :: b3 :: _ => some (((b0 * 256 + b1) * 256 + b2) * 256 + b3)
  | _ => none

/-- Natural-order key comparison modeling
`keyA.localeCompare(keyB, undefined, numeric: true)`: maximal digit runs are
compared by numeric value, all other positions by byte value.  The fuel is an
upper bound on the number of steps; it is never exhausted because every step
consumes at least one byte from one of the two keys. -/
def natOrdFuel : Nat → List Nat → List Nat → Ordering
  | 0, _, _ => .eq
  | _ + 1, [], [] => .eq
  | _ + 1, [], _ :: _ => .lt
  | _ + 1, _ :: _, [] => .gt
  | fuel + 1, a :: as, b :: bs =>
    if isDigitByte a && isDigitByte b then
      let runA := (a :: as).takeWhile isDigitByte
      let runB := (b :: bs).takeWhile isDigitByte
      match compare (digitsVal runA) (digitsVal runB) with
      | .eq => natOrdFuel fuel ((a :: as).dropWhile isDigitByte) ((b :: bs).dropWhile isDigitByte)
      | o => o
    else
      match compare a b with
      | .eq => natOrdFuel fuel as bs
      | o => o

/-- Natural-order key comparison (entry point). -/
def natOrd (a b : List Nat) : Ordering := natOrdFuel (a.length + b.length + 1) a b

/-- `a` sorts no later than `b` under the natural-order comparison. -/
def keyLe (a b : List Nat) : Bool := natOrd a b ≠ Ordering.gt

/-- Insert one key-value pair into a sorted run (helper of the sort used by
`Object.entries(data).sort(...)`). -/
def insertField (p : (List Nat) × JsVal) : List ((List Nat) × JsVal) → List ((List Nat) × JsVal)
  | [] => [p]
  | q :: qs => if keyLe p.1 q.1 then p :: q :: qs else q :: insertField p qs

/-- Sort the entries of an object by key, as `encode` does before emission. -/
def sortFields : List ((List Nat) × JsVal) → List ((List Nat) × JsVal)
  | [] => []
  | p :: ps => insertField p (sortFields ps)

theorem sizeOf_insertField (p : (List Nat) × JsVal) (l : List ((List Nat) × JsVal)) :
    sizeOf (insertField p l) = sizeOf (p :: l) := by
  induction l with
  | nil => rfl
  | cons q qs ih =>
    simp only [insertField]
    split
    · rfl
    · simp only [List.cons.sizeOf_spec, ih]
      omega

theorem sizeOf_sortFields (l : List ((List Nat) × JsVal)) :
    sizeOf (sortFields l) = sizeOf l := by
  induction l with
  | nil => rfl
  | cons p ps ih =>
    simp only [sortFields, sizeOf_insertField, List.cons.sizeOf_spec]
    omega

mutual

/-- `_encode` of `src/util/encoder.ts`: single-byte type marker followed by
the payload; arrays and objects carry a `u32be` count and `u32be`-sized
entries. -/
def encodeVal : JsVal → List Nat
  | .nul => [0]
  | .undef => [0]
  | .buf bs => 5 :: bs
  | .str s => 1 :: s
  | .num n => 2 :: intDecimal n
  | .boolean b => 3 :: [if b then 49 else 48]
  | .bigint n => 4 :: intDecimal n
  | .date ms => 6 :: intDecimal ms
  | .arr xs => 7 :: (u32be xs.length ++ encodeElems xs)
  | .obj fs => 8 :: (u32be (sortFields fs).length ++ encodePairs (sortFields fs))
termination_by v => sizeOf v
decreasing_by
  all_goals simp_wf
  all_goals ((try rw [sizeOf_sortFields]); omega)

/-- Encoded array body: each element prefixed with its encoded size. -/
def encodeElems : List JsVal → List Nat
  | [] => []
  | x :: xs => u32be (encodeVal x).length ++ encodeVal x ++ encodeElems xs
termination_by l => sizeOf l
decreasing_by
  all_goals simp_wf
  all_goals omega

/-- Encoded object body: size-prefixed encoded key then size-prefixed encoded
value, per entry.  Keys are strings, hence marker 1. -/
def encodePairs : List ((List Nat) × JsVal) → List Nat
  | [] => []
  | (k, v) :: fs =>
      u32be (1 :: k).length ++ (1 :: k) ++
      u32be (encodeVal v).length ++ encodeVal v ++ encodePairs fs
termination_by l => sizeOf l
decreasing_by
  all_goals simp_wf
  all_goals omega

end

mutual

/-- `decode` of `src/util/encoder.ts`.  An empty buffer, an unknown marker, a
short length field, or numeric text that `Number`/`BigInt` cannot produce by
round-trip is a decode failure (`none`). -/
def decodeVal (b : List Nat) : Option JsVal :=
  match b with
  | [] => none
  | marker :: content =>
    if marker = 0 then some .nul
    else if marker = 1 then some (.str content)
    else if marker = 2 then (parseIntDec content).map JsVal.num
    else if marker = 3 then some (.boolean (content = [49]))
    else if marker = 4 then (parseIntDec content).map JsVal.bigint
    else if marker = 5 then some (.buf content)
    else if marker = 6 then (parseIntDec content).map JsVal.date
    else if marker = 7 then
      match content with
      | c0 :: c1 :: c2 :: c3 :: rest =>
          (decodeElems (((c0 * 256 + c1) * 256 + c2) * 256 + c3) rest).map JsVal.arr
      | _ => none
    else if marker = 8 then
      match content with
      | c0 :: c1 :: c2 :: c3 :: rest =>
          (decodePairs (((c0 * 256 + c1) * 256 + c2) * 256 + c3) rest).map JsVal.obj
      | _ => none
    else none
termination_by b.length
decreasing_by
  all_goals simp_wf
  all_goals omega

/-- Decode `count` size-prefixed array elements. -/
def decodeElems (count : Nat) (b : List Nat) : Option (List JsVal) :=
  match count with
  | 0 => some []
  | c + 1 =>
    match b with
    | s0 :: s1 :: s2 :: s3 :: rest =>
      let size := ((s0 * 256 + s1) * 256 + s2) * 256 + s3
      match decodeVal (rest.take size) with
      | none => none
      | some v => (decodeElems c (rest.drop size)).map (v :: ·)
    | _ => none
termination_by b.length
decreasing_by
  all_goals simp_wf
  all_goals omega

/-- Decode `count` size-prefixed key-value pairs.  The source casts the
decoded key to a string unconditionally; encoded keys always carry marker 1,
so a non-string key is modeled as a decode failure. -/
def decodePairs (count : Nat) (b : List Nat) : Option (List ((List Nat) × JsVal)) :=
  match count with
  | 0 => some []
  | c + 1 =>
    match b with
    | k0 :: k1 :: k2 :: k3 :: r1 =>
      let ksize := ((k0 * 256 + k1) * 256 + k2) * 256 + k3
      match decodeVal (r1.take ksize) with
      | some (.str k) =>
        match readU32 (r1.drop ksize) with
        | none => none
        | some vsize =>
          match decodeVal ((r1.drop (ksize + 4)).take vsize) with
          | none => none
          | some v => (decodePairs c ((r1.drop (ksize + 4)).drop vsize)).map ((k, v) :: ·)
      | _ => none
    | _ => none
termination_by b.length
decreasing_by
  all_goals simp_wf
  all_goals omega

end

/-! Arithmetic facts about the decimal printer and the length fields. -/

theorem digitsVal_concat (xs : List Nat) (d : Nat) :
    digitsVal (xs ++ [d]) = digitsVal xs * 10 + (d - 48) := by
  simp [digitsVal, List.foldl_append]

theorem digitsVal_rev_map (ds : List Nat) :
    digitsVal ((ds.map (· + 48)).reverse) = Nat.ofDigits 10 ds := by
  induction ds with
  | nil => simp [digitsVal]
  | cons d ds ih =>
    simp only [List.map_cons, List.reverse_cons, digitsVal_concat, ih, Nat.ofDigits_cons]
    omega

theorem mem_natDecimal_digit {n b : Nat} (hb : b ∈ natDecimal n) : 48 ≤ b ∧ b ≤ 57 := by
  unfold natDecimal at hb
  by_cases h : n = 0
  · simp [h] at hb
    omega
  · rw [natDigitsFuel_eq n n le_rfl] at hb
    simp only [h, if_false, List.mem_reverse, List.mem_map] at hb
    obtain ⟨d, hd, rfl⟩ := hb
    have := Nat.digits_lt_base (by norm_num) hd
    omega

theorem natDecimal_ne_nil (n : Nat) : natDecimal n ≠ [] := by
  unfold natDecimal
  by_cases h : n = 0
  · simp [h]
  · rw [natDigitsFuel_eq n n le_rfl]
    simp [h, List.reverse_eq_nil_iff, Nat.digits_ne_nil_iff_ne_zero]

theorem parseNatDec_natDecimal (n : Nat) : parseNatDec (natDecimal n) = some n := by
  have hall : (natDecimal n).all isDigitByte = true := by
    rw [List.all_eq_true]
    intro b hb
    have := mem_natDecimal_digit hb
    simp only [isDigitByte, Bool.and_eq_true, decide_eq_true_eq]
    omega
  unfold parseNatDec
  rw [if_pos ⟨natDecimal_ne_nil n, hall⟩]
  congr 1
  by_cases h : n = 0
  · subst h; decide
  · unfold natDecimal
    rw [if_neg h, natDigitsFuel_eq n n le_rfl, digitsVal_rev_map, Nat.ofDigits_digits]

theorem natDecimal_head_ne_minus (n : Nat) : (natDecimal n).head? ≠ some 45 := by
  cases hd : natDecimal n with
  | nil => simp
  | cons b bs =>
    have hb : b ∈ natDecimal n := by rw [hd]; exact List.mem_cons_self b bs
    have := mem_natDecimal_digit hb
    simp only [List.head?_cons, ne_eq, Option.some.injEq]
    omega

theorem parseIntDec_intDecimal (n : Int) : parseIntDec (intDecimal n) = some n := by
  cases n with
  | ofNat m =>
    show parseIntDec (natDecimal m) = some (Int.ofNat m)
    unfold parseIntDec
    rw [if_neg (natDecimal_head_ne_minus m), parseNatDec_natDecimal]
    rfl
  | negSucc m =>
    show parseIntDec (45 :: natDecimal (m + 1)) = some (Int.negSucc m)
    have h1 : parseIntDec (45 :: natDecimal (m + 1)) =
        (parseNatDec (natDecimal (m + 1))).map (fun n => -(n : Int)) := by
      simp [parseIntDec]
    rw [h1, parseNatDec_natDecimal]
    show some (-(((m + 1) : Nat) : Int)) = some (Int.negSucc m)
    congr 1

theorem u32_roundtrip (n : Nat) (h : n < 4294967296) :
    ((n / 16777216 % 256 * 256 + n / 65536 % 256) * 256 + n / 256 % 256) * 256 + n % 256 = n := by
  omega

theorem readU32_u32be (n : Nat) (rest : List Nat) (h : n < 4294967296) :
    readU32 (u32be n ++ rest) = some n := by
  simp only [u32be, List.cons_append, List.nil_append, readU32, Option.some.injEq]
  omega

theorem length_u32be (n : Nat) : (u32be n).length = 4 := by
  simp [u32be]

/-! Single-marker unfolding equations for the decoder. -/

theorem decodeVal_marker0 (content : List Nat) : decodeVal (0 :: content) = some .nul := by
  rcases content with _ | ⟨c0, _ | ⟨c1, _ | ⟨c2, _ | ⟨c3, rest⟩⟩⟩⟩ <;> simp [decodeVal]

theorem decodeVal_marker1 (content : List Nat) :
    decodeVal (1 :: content) = some (.str content) := by
  rcases content with _ | ⟨c0, _ | ⟨c1, _ | ⟨c2, _ | ⟨c3, rest⟩⟩⟩⟩ <;> simp [decodeVal]

theorem decodeVal_marker2 (content : List Nat) :
    decodeVal (2 :: content) = (parseIntDec content).map JsVal.num := by
  rcases content with _ | ⟨c0, _ | ⟨c1, _ | ⟨c2, _ | ⟨c3, rest⟩⟩⟩⟩ <;> simp [decodeVal]

theorem decodeVal_marker3 (content : List Nat) :
    decodeVal (3 :: content) = some (.boolean (content = [49])) := by
  rcases content with _ | ⟨c0, _ | ⟨c1, _ | ⟨c2, _ | ⟨c3, rest⟩⟩⟩⟩ <;> simp [decodeVal]

theorem decodeVal_marker4 (content : List Nat) :
    decodeVal (4 :: content) = (parseIntDec content).map JsVal.bigint := by
  rcases content with _ | ⟨c0, _ | ⟨c1, _ | ⟨c2, _ | ⟨c3, rest⟩⟩⟩⟩ <;> simp [decodeVal]

theorem decodeVal_marker5 (content : List Nat) :
    decodeVal (5 :: content) = some (.buf content) := by
  rcases content with _ | ⟨c0, _ | ⟨c1, _ | ⟨c2, _ | ⟨c3, rest⟩⟩⟩⟩ <;> simp [decodeVal]

theorem decodeVal_marker6 (content : List Nat) :
    decodeVal (6 :: content) = (parseIntDec content).map JsVal.date := by
  rcases content with _ | ⟨c0, _ | ⟨c1, _ | ⟨c2, _ | ⟨c3, rest⟩⟩⟩⟩ <;> simp [decodeVal]

theorem decodeVal_marker7 (c0 c1 c2 c3 : Nat) (rest : List Nat) :
    decodeVal (7 :: c0 :: c1 :: c2 :: c3 :: rest) =
      (decodeElems (((c0 * 256 + c1) * 256 + c2) * 256 + c3) rest).map JsVal.arr := by
  simp [decodeVal]

theorem decodeVal_marker8 (c0 c1 c2 c3 : Nat) (rest : List Nat) :
    decodeVal (8 :: c0 :: c1 :: c2 :: c3 :: rest) =
      (decodePairs (((c0 * 256 + c1) * 256 + c2) * 256 + c3) rest).map JsVal.obj := by
  simp [decodeVal]

theorem decodeVal_arr_enc (n : Nat) (rest : List Nat) (h : n < 4294967296) :
    decodeVal (7 :: (u32be n ++ rest)) = (decodeElems n rest).map JsVal.arr := by
  simp only [u32be, List.cons_append, List.nil_append, decodeVal_marker7]
  rw [u32_roundtrip n h]

theorem decodeVal_obj_enc (n : Nat) (rest : List Nat) (h : n < 4294967296) :
    decodeVal (8 :: (u32be n ++ rest)) = (decodePairs n rest).map JsVal.obj := by
  simp only [u32be, List.cons_append, List.nil_append, decodeVal_marker8]
  rw [u32_roundtrip n h]

/-- Object keys in strictly ascending natural order.  JS objects cannot hold
two identical keys and `encode` emits entries sorted, so a canonical
in-memory object has adjacent keys strictly increasing. -/
def sortedKeys : List ((List Nat) × JsVal) → Bool
  | [] => true
  | [_] => true
  | p :: q :: fs => (natOrd p.1 q.1 == Ordering.lt) && sortedKeys (q :: fs)

theorem sortFields_eq_of_sorted :
    ∀ {fs : List ((List Nat) × JsVal)}, sortedKeys fs = true → sortFields fs = fs := by
  intro fs
  induction fs with
  | nil => intro _; rfl
  | cons p ps ih =>
    intro h
    have hps : sortedKeys ps = true := by
      cases ps with
      | nil => rfl
      | cons q rest =>
        simp only [sortedKeys, Bool.and_eq_true] at h
        exact h.2
    rw [sortFields, ih hps]
    cases ps with
    | nil => rfl
    | cons q rest =>
      simp only [sortedKeys, Bool.and_eq_true, beq_iff_eq] at h
      have hle : keyLe p.1 q.1 = true := by
        simp only [keyLe, h.1, decide_eq_true_eq]
        exact fun hc => absurd (hc ▸ h.1) (by intro hx; cases hx)
      simp [insertField, hle]

mutual

/-- Values inside the grammar actually handled by the codec: `undefined` is
excluded (it collapses to null), bytes are in range, array and object counts
and encoded entry sizes fit the `u32be` length fields, and object keys are
canonical (strictly sorted, as `encode` itself emits them). -/
def wfVal : JsVal → Bool
  | .nul => true
  | .undef => false
  | .str s => s.all (· < 256)
  | .num _ => true
  | .boolean _ => true
  | .bigint _ => true
  | .buf bs => bs.all (· < 256)
  | .date _ => true
  | .arr xs => (xs.length < 4294967296 : Bool) && wfElems xs
  | .obj fs => (fs.length < 4294967296 : Bool) && sortedKeys fs && wfPairs fs
termination_by v => sizeOf v

/-- Well-formedness of array elements, with the size-field bound. -/
def wfElems : List JsVal → Bool
  | [] => true
  | x :: xs => wfVal x && ((encodeVal x).length < 4294967296 : Bool) && wfElems xs
termination_by l => sizeOf l

/-- Well-formedness of object entries, with the size-field bounds. -/
def wfPairs : List ((List Nat) × JsVal) → Bool
  | [] => true
  | (k, v) :: fs =>
      k.all (· < 256) && (k.length + 1 < 4294967296 : Bool) &&
      wfVal v && ((encodeVal v).length < 4294967296 : Bool) && wfPairs fs
termination_by l => sizeOf l

end

/-- One decoding step on an encoded array entry. -/
theorem decodeElems_enc_step (c size : Nat) (payload rest : List Nat) (w : JsVal)
    (hsz : size < 4294967296) (hlen : payload.length = size)
    (hdv : decodeVal payload = some w) :
    decodeElems (c + 1) (u32be size ++ (payload ++ rest)) =
      (decodeElems c rest).map (w :: ·) := by
  simp only [u32be, List.cons_append, List.nil_append, decodeElems]
  rw [u32_roundtrip size hsz, List.take_left' hlen, List.drop_left' hlen, hdv]

/-- One decoding step on an encoded object entry. -/
theorem decodePairs_enc_step (c : Nat) (kpayload vpayload rest : List Nat)
    (k : List Nat) (w : JsVal)
    (hk : kpayload.length < 4294967296) (hvl : vpayload.length < 4294967296)
    (hkdec : decodeVal kpayload = some (.str k))
    (hvdec : decodeVal vpayload = some w) :
    decodePairs (c + 1)
      (u32be kpayload.length ++
        (kpayload ++ (u32be vpayload.length ++ (vpayload ++ rest)))) =
      (decodePairs c rest).map ((k, w) :: ·) := by
  have hdrop45 : ∀ (t : List Nat) (b0 b1 b2 b3 : Nat),
      (kpayload ++ (b0 :: b1 :: b2 :: b3 :: t)).drop (kpayload.length + 4) = t := by
    intro t b0 b1 b2 b3
    rw [show kpayload ++ (b0 :: b1 :: b2 :: b3 :: t) =
          (kpayload ++ [b0, b1, b2, b3]) ++ t from by simp]
    apply List.drop_left'
    simp
  simp only [u32be, List.cons_append, List.nil_append, decodePairs,
    u32_roundtrip kpayload.length hk, u32_roundtrip vpayload.length hvl,
    List.take_left, List.drop_left, hkdec, readU32, hdrop45, hvdec]

mutual

/-- Round-trip of the codec on a single well-formed value. -/
theorem decodeVal_encodeVal : ∀ (v : JsVal), wfVal v = true → decodeVal (encodeVal v) = some v
  | .nul, _ => by simp only [encodeVal]; exact decodeVal_marker0 []
  | .undef, h => by simp only [wfVal] at h; exact Bool.noConfusion h
  | .str s, _ => by simp only [encodeVal]; exact decodeVal_marker1 s
  | .num n, _ => by
      simp only [encodeVal, decodeVal_marker2, parseIntDec_intDecimal]
      rfl
  | .boolean b, _ => by
      cases b <;> simp [encodeVal, decodeVal_marker3]
  | .bigint n, _ => by
      simp only [encodeVal, decodeVal_marker4, parseIntDec_intDecimal]
      rfl
  | .buf bs, _ => by simp only [encodeVal]; exact decodeVal_marker5 bs
  | .date ms, _ => by
      simp only [encodeVal, decodeVal_marker6, parseIntDec_intDecimal]
      rfl
  | .arr xs, h => by
      simp only [wfVal, Bool.and_eq_true, decide_eq_true_eq] at h
      rw [show encodeVal (.arr xs) = 7 :: (u32be xs.length ++ encodeElems xs) from by
            simp only [encodeVal]]
      rw [decodeVal_arr_enc xs.length (encodeElems xs) h.1,
        decodeElems_encodeElems xs h.2]
      rfl
  | .obj fs, h => by
      simp only [wfVal, Bool.and_eq_true, decide_eq_true_eq] at h
      have hsort : sortFields fs = fs := sortFields_eq_of_sorted h.1.2
      rw [show encodeVal (.obj fs) =
            8 :: (u32be (sortFields fs).length ++ encodePairs (sortFields fs)) from by
            simp only [encodeVal]]
      rw [hsort, decodeVal_obj_enc fs.length (encodePairs fs) h.1.1,
        decodePairs_encodePairs fs h.2]
      rfl

/-- Round-trip of the codec on an encoded array body. -/
theorem decodeElems_encodeElems :
    ∀ (xs : List JsVal), wfElems xs = true →
      decodeElems xs.length (encodeElems xs) = some xs
  | [], _ => by simp only [encodeElems, List.length_nil, decodeElems]
  | x :: xs, h => by
      simp only [wfElems, Bool.and_eq_true, decide_eq_true_eq] at h
      have hv := decodeVal_encodeVal x h.1.1
      have hrest := decodeElems_encodeElems xs h.2
      rw [show encodeElems (x :: xs) =
            u32be (encodeVal x).length ++ encodeVal x ++ encodeElems xs from by
            simp only [encodeElems]]
      rw [List.length_cons, List.append_assoc]
      rw [decodeElems_enc_step xs.length (encodeVal x).length (encodeVal x)
            (encodeElems xs) x h.1.2 rfl hv]
      rw [hrest]
      rfl

/-- Round-trip of the codec on an encoded object body. -/
theorem decodePairs_encodePairs :
    ∀ (fs : List ((List Nat) × JsVal)), wfPairs fs = true →
      decodePairs fs.length (encodePairs fs) = some fs
  | [], _ => by simp only [encodePairs, List.length_nil, decodePairs]
  | (k, v) :: fs, h => by
      simp only [wfPairs, Bool.and_eq_true, decide_eq_true_eq] at h
      obtain ⟨⟨⟨⟨_, hklen⟩, hwv⟩, hvlen⟩, hrest⟩ := h
      have hv := decodeVal_encodeVal v hwv
      have hfs := decodePairs_encodePairs fs hrest
      rw [show encodePairs ((k, v) :: fs) =
            u32be ((1 :: k) : List Nat).length ++ ((1 :: k) ++
              (u32be (encodeVal v).length ++ (encodeVal v ++ encodePairs fs))) from by
            simp only [encodePairs, List.append_assoc]]
      rw [List.length_cons]
      rw [decodePairs_enc_step fs.length (1 :: k) (encodeVal v) (encodePairs fs) k v
            (by simpa using hklen) hvlen (decodeVal_marker1 k) hv]
      rw [hfs]
      rfl

end

end Codec

namespace Task

/-- The OracleError taxonomy of `src/util/errors.ts`. -/
inductive ErrType where
  | permanent_error
  | prepare_error
  | process_error
  | validation_error
  | execute_error
  | non_error
  | plugin_error
  | insufficient_peers
  | timeout
deriving DecidableEq

/-- A tagged error with its optional context string. -/
structure OracleErr where
  type : ErrType
  context : Option String
deriving DecidableEq

/-- A configured peer (`config.peers[]`); only the public key matters to the
coordinator. -/
structure Peer where
  publicKey : String
deriving DecidableEq

/-- The slice of `OracleConfig` that `Task.ts` reads. -/
structure OracleConfigM where
  publicKey : String
  peers : List Peer
  minSignaturesRequired : Nat

/-- `ProtocolPrepareResult`: prepared data plus the signature produced by the
peer over its encoded prepared data; the primary record carries no
signature (`signatureData: null`). -/
structure ProtocolPrepareResult (α : Type) where
  data : α
  signatureData : Option String
deriving DecidableEq

/-- One entry of `prepareResults` in `Task.runPreparePhase`. -/
structure PrepRecord (α : Type) where
  publicKey : String
  result : ProtocolPrepareResult α
deriving DecidableEq

/-- One entry of the `ProcessInput` list handed to `plugin.process`. -/
structure ProcessInput (α : Type) where
  pubkey : String
  data : α
deriving DecidableEq

/-- How one peer prepare RPC looked when the prepare race was decided:
`success` if it resolved with a prepare response, `failure` if it resolved
with an error (logged and skipped), `pending` if it had not settled when the
`peerTimeoutMs` timer fired.  The timer wins the `Promise.race` exactly when
some RPC is still pending. -/
inductive PeerOutcome (α : Type) where
  | success (data : α) (signature : String)
  | failure
  | pending
deriving DecidableEq

/-- The environment a single `Task.start()` run observes: the local plugin
prepare outcome, one outcome per configured peer (aligned with
`config.peers`; arrival order inside the race does not matter to any
checked property, so records keep configuration order), and the outcomes of
the process, validate and execute calls. -/
structure TaskEnv (α β γ δ : Type) where
  localPrepare : Except OracleErr α
  peerOutcomes : List (PeerOutcome α)
  processResult : List (ProcessInput α) → Except OracleErr β
  localValidate : β → α → Except OracleErr (Option γ)
  peerValidate : Peer → γ → α → String → Except OracleErr γ
  executeResult : γ → Except OracleErr δ

variable {α β γ δ : Type}

/-- Whether the prepare timer fired: `Promise.race` rejects with the timeout
exactly when some peer RPC had not settled within `peerTimeoutMs`. -/
def timedOut (env : TaskEnv α β γ δ) : Bool :=
  env.peerOutcomes.any fun o =>
    match o with
    | .pending => true
    | _ => false

/-- The peer entries pushed into `prepareResults`: one per peer whose RPC
resolved successfully before the race was decided. -/
def peerRecords (cfg : OracleConfigM) (env : TaskEnv α β γ δ) : List (PrepRecord α) :=
  (cfg.peers.zip env.peerOutcomes).filterMap fun po =>
    match po.2 with
    | .success d sig => some ⟨po.1.publicKey, ⟨d, some sig⟩⟩
    | _ => none

/-- The full `prepareResults` list: the local record first (no signature),
then the collected peer records. -/
def prepareRecords (cfg : OracleConfigM) (env : TaskEnv α β γ δ) (localData : α) :
    List (PrepRecord α) :=
  ⟨cfg.publicKey, ⟨localData, none⟩⟩ :: peerRecords cfg env

/-- The public keys of the collected prepare records (self plus responding
peers), independent of the prepared payloads. -/
def collectedKeys (cfg : OracleConfigM) (env : TaskEnv α β γ δ) : List String :=
  cfg.publicKey :: (peerRecords cfg env).map (·.publicKey)

/-- `Task.runPreparePhase`: local prepare, fan-out, race against the timer,
then the quorum check on the number of collected records. -/
def runPreparePhase (cfg : OracleConfigM) (env : TaskEnv α β γ δ) :
    Except OracleErr (List (PrepRecord α)) :=
  match env.localPrepare with
  | .error e => .error e
  | .ok d =>
    if timedOut env then
      .error ⟨.timeout, some "Prepare phase timed out"⟩
    else if (prepareRecords cfg env d).length < cfg.minSignaturesRequired then
      .error ⟨.insufficient_peers,
        some ("Only " ++ toString (prepareRecords cfg env d).length ++ " peers available")⟩
    else
      .ok (prepareRecords cfg env d)

/-- The list handed to `plugin.process` (pubkey and data of each record, in
insertion order). -/
def toProcessInput (records : List (PrepRecord α)) : List (ProcessInput α) :=
  records.map fun r => ⟨r.publicKey, r.result.data⟩

/-- The serial peer-validation loop of `Task.runValidatePhase`: for each
validation peer look up its prepared data and prepare signature among the
records and post `/task/validate`; any error aborts. -/
def validatePeersLoop (env : TaskEnv α β γ δ) (records : List (PrepRecord α)) :
    γ → List Peer → Except OracleErr γ
  | data, [] => .ok data
  | data, peer :: rest =>
    match (records.find? fun r => r.publicKey = peer.publicKey).map (·.result.data) with
    | none => .error ⟨.plugin_error, some "No prepared data received from peer"⟩
    | some prep =>
      match (records.find? fun r => r.publicKey = peer.publicKey).bind
          (·.result.signatureData) with
      | none => .error ⟨.plugin_error, some "No signature received from peer"⟩
      | some sig =>
        match env.peerValidate peer data prep sig with
        | .error e => .error e
        | .ok d2 => validatePeersLoop env records d2 rest

/-- `Task.runValidatePhase`: the local validate first (a missing result is a
plugin error), then the peers that contributed a prepare, filtered through
`config.peers` (which excludes the local node), in order. -/
def runValidatePhase (cfg : OracleConfigM) (env : TaskEnv α β γ δ) (processedData : β)
    (records : List (PrepRecord α)) : Except OracleErr γ :=
  if records.length = 0 then .error ⟨.insufficient_peers, none⟩
  else
    match records.head? with
    | none => .error ⟨.plugin_error, some "No prepare result from primary peer"⟩
    | some first =>
      match env.localValidate processedData first.result.data with
      | .error e => .error e
      | .ok none =>
          .error ⟨.plugin_error, some "Received no validation result from primary peer"⟩
      | .ok (some v0) =>
        let validationPeers := (records.map (·.publicKey)).filterMap fun pk =>
          cfg.peers.find? fun p => p.publicKey = pk
        validatePeersLoop env records v0 validationPeers

/-- What one `Task.start()` run did: the reported result plus which effects
happened (fan-out issued, phases invoked, completion metric incremented). -/
structure TaskTrace (δ : Type) where
  result : Except OracleErr (Option δ)
  peerFanout : Bool
  processInvoked : Bool
  localValidateInvoked : Bool
  executeInvoked : Bool
  metricIncremented : Bool

/-- `Task.start()`: prepare, then process, then validate, then execute; a
`permanent_error` from prepare is converted into a vacuous success with an
empty (undefined) output; the completion metrics are incremented only after
a successful execute. -/
def taskStart (cfg : OracleConfigM) (env : TaskEnv α β γ δ) : TaskTrace δ :=
  match runPreparePhase cfg env with
  | .error e =>
    { result := if e.type = .permanent_error then .ok none else .error e
      peerFanout := match env.localPrepare with | .ok _ => true | .error _ => false
      processInvoked := false
      localValidateInvoked := false
      executeInvoked := false
      metricIncremented := false }
  | .ok records =>
    match env.processResult (toProcessInput records) with
    | .error e =>
      { result := .error e, peerFanout := true, processInvoked := true
        localValidateInvoked := false, executeInvoked := false, metricIncremented := false }
    | .ok agg =>
      match runValidatePhase cfg env agg records with
      | .error e =>
        { result := .error e, peerFanout := true, processInvoked := true
          localValidateInvoked := records.length ≠ 0, executeInvoked := false
          metricIncremented := false }
      | .ok v =>
        match env.executeResult v with
        | .error e =>
          { result := .error e, peerFanout := true, processInvoked := true
            localValidateInvoked := true, executeInvoked := true
            metricIncremented := false }
        | .ok out =>
          { result := .ok (some out), peerFanout := true, processInvoked := true
            localValidateInvoked := true, executeInvoked := true
            metricIncremented := true }

end Task

namespace EVMListener

/-- What the `EVMListener.run` event loop does after `handleEvent` returns. -/
inductive LoopAction where
  | skipEvent
  | cacheAndContinue
  | rescheduleError
deriving DecidableEq

/-- The reaction of the `EVMListener.run` loop to one `handleEvent` result:
an error tagged `non_error` logs "already processed" and continues with the
next event; any other error ends the round rescheduling the listener; a
success stores the result under the event id in the dedup cache and
continues. -/
def runLoopReaction {χ : Type} (result : Except Task.OracleErr χ) : LoopAction :=
  match result with
  | .error e => if e.type = .non_error then .skipEvent else .rescheduleError
  | .ok _ => .cacheAndContinue

end EVMListener

namespace Crypto

/-- SHA-256 over a buffer (`hashData` of `src/util/crypto.ts`), idealized as
an injective digest: only determinism and injectivity of the hash are used
by any checked property. -/
def hashData (data : List Nat) : List Nat := 0 :: data

/-- An ECDSA compact signature, idealized Dolev-Yau style: it records the
digest that was signed and the public counterpart of the signing key.
Verification recomputes the digest and compares both fields. -/
structure Signature where
  digest : List Nat
  signerPubKey : String
deriving DecidableEq

/-- secp256k1 public-key derivation, idealized as an injective tag on the
private key. -/
def pubKeyOf (privateKey : String) : String := "pub:" ++ privateKey

/-- `signData`: sign the SHA-256 of the buffer with the private key. -/
def signData (data : List Nat) (privateKey : String) : Signature :=
  ⟨hashData data, pubKeyOf privateKey⟩

/-- `verifySignature`: check the signature over the SHA-256 of the buffer
under the given public key. -/
def verifySignature (data : List Nat) (sig : Signature) (publicKey : String) : Bool :=
  sig.digest = hashData data && sig.signerPubKey = publicKey

end Crypto

namespace TaskValidateRoute

/-- The decoded body of a `/task/validate` request. -/
structure ValidateRequest where
  pluginId : String
  input : Codec.JsVal
  preparedData : Codec.JsVal
  signature : Crypto.Signature

/-- The serialized error tag used in route responses. -/
def errTag : Task.ErrType → String
  | .permanent_error => "permanent_error"
  | .prepare_error => "prepare_error"
  | .process_error => "process_error"
  | .validation_error => "validation_error"
  | .execute_error => "execute_error"
  | .non_error => "non_error"
  | .plugin_error => "plugin_error"
  | .insufficient_peers => "insufficient_peers"
  | .timeout => "timeout"

/-- An HTTP response of the route: status, the error field of the JSON body
when present, and the hex payload (here: the raw encoded bytes) on 200. -/
structure RouteResponse where
  status : Nat
  error : Option String
  encodedData : Option (List Nat)

/-- The node-local configuration the route reads: its own public key. -/
structure NodeConfig where
  publicKey : String

/-- `taskValidate` of `src/routes/taskValidate.ts`: verify the carried
signature over the codec-encoding of the claimed preparedData under the
node's configured public key; on failure answer 400 "Invalid signature"
without running any plugin code; then look up the plugin (404 when absent)
and run its validate, answering 500 with the error tag or 200 with the
encoded result.  The returned flag records whether `plugin.validate` ran. -/
def taskValidate (cfg : NodeConfig)
    (plugins : String → Option (Codec.JsVal → Codec.JsVal → Except Task.OracleErr Codec.JsVal))
    (req : ValidateRequest) : RouteResponse × Bool :=
  if ¬ Crypto.verifySignature (Codec.encodeVal req.preparedData) req.signature cfg.publicKey
  then (⟨400, some "Invalid signature", none⟩, false)
  else
    match plugins req.pluginId with
    | none => (⟨404, some ("Plugin " ++ req.pluginId ++ " not found"), none⟩, false)
    | some validate =>
      match validate req.input req.preparedData with
      | .error e => (⟨500, some (errTag e.type), none⟩, true)
      | .ok v => (⟨200, none, some (Codec.encodeVal v)⟩, true)

end TaskValidateRoute

namespace ERC20Forwarder

/-- The error thrown by the downstream postchain client on a rejected
submission: its HTTP status (absent for transport-level failures) and its
message. -/
structure HttpError where
  status : Option Nat
  message : Option String
deriving DecidableEq

/-- The error handling of `ERC20Forwarder.execute`
(`src/plugins/ERC20Forwarder.ts`): a successful submission returns
`ok true`; a thrown error whose status satisfies
`status >= 400 && status !== 499` is logged "Permanent error, marking as
success" and also returns `ok true`; every other error becomes an
`execute_error` with the error message as context. -/
def execute (submit : Except HttpError Unit) : Except Task.OracleErr Bool :=
  match submit with
  | .ok _ => .ok true
  | .error e =>
    match e.status with
    | some s =>
      if 400 ≤ s ∧ s ≠ 499 then .ok true
      else .error ⟨.execute_error, some (e.message.getD "Unknown error")⟩
    | none => .error ⟨.execute_error, some (e.message.getD "Unknown error")⟩

end ERC20Forwarder

namespace Throttler

/-- How one call of the wrapped function ended: a value, a rate-limit error
(HTTP 429, recognized from the message or the error code), or any other
thrown error. -/
inductive CallOutcome (τ : Type) where
  | success (t : τ)
  | rateLimited
  | failure
deriving DecidableEq

/-- The mutable backoff state of one `Throttler` instance. -/
structure State where
  consecutiveErrors : Nat
  backoffMs : Nat
deriving DecidableEq

/-- `maxBackoffMs` of `src/util/throttle.ts`. -/
def maxBackoffMs : Nat := 15000

/-- The state of a fresh `Throttler` (fields `consecutiveErrors = 0`,
`backoffMs = 500`). -/
def initialState : State := ⟨0, 500⟩

/-- How the retry loop ended. -/
inductive RetryOutcome (τ : Type) where
  | returned (t : τ)
  | threw
  | stillRetrying
deriving DecidableEq

/-- `Throttler.executeWithRetry` driven by the list of successive outcomes of
the wrapped function: a success decrements `consecutiveErrors` and resets the
backoff to 100 ms once it reaches zero; a 429 doubles the backoff (capped at
15000 ms), sleeps that long and retries through `execute` (the `acquireSlot`
wait and the `reduceRateLimit` bucket tweak are timing-only and not
modeled); any other error is rethrown at once.  The result carries the final
state, the sleeps performed, and how the loop ended (`stillRetrying` when
the supplied outcome list was exhausted by 429 retries). -/
def executeWithRetry {τ : Type} : State → List (CallOutcome τ) → State × List Nat × RetryOutcome τ
  | s, [] => (s, [], .stillRetrying)
  | s, .success t :: _ =>
    let ce := s.consecutiveErrors - 1
    (⟨ce, if ce = 0 then 100 else s.backoffMs⟩, [], .returned t)
  | s, .rateLimited :: rest =>
    let b := min (s.backoffMs * 2) maxBackoffMs
    let r := executeWithRetry ⟨s.consecutiveErrors + 1, b⟩ rest
    (r.1, b :: r.2.1, r.2.2)
  | s, .failure :: _ => (s, [], .threw)

end Throttler

namespace HeliusWebhook

/-- One token balance change of the Helius webhook payload. -/
structure TokenBalanceChange where
  mint : String
  tokenAmount : String
  decimals : Int
  tokenAccount : String
  userAccount : String
deriving DecidableEq

/-- One account entry of the payload. -/
structure AccountData where
  tokenBalanceChanges : List TokenBalanceChange

/-- One transfer entry of the payload. -/
structure TransferData where
  accountData : List AccountData

/-- JS `.toLowerCase()`, modeled per character (the standard library's
position-based `String.map` does not reduce in the kernel). -/
def lowerStr (s : String) : String := String.mk (s.data.map Char.toLower)

/-- The filter stage of `heliusWebhook`: flatten all token balance changes
and keep those whose mint is tracked (case-insensitively), whose token
account differs from the user account, and whose amount is non-zero. -/
def tokenTransfers (tracked : List String) (body : List TransferData) :
    List TokenBalanceChange :=
  ((body.flatMap (·.accountData)).flatMap (·.tokenBalanceChanges)).filter fun b =>
    (tracked.map lowerStr).contains (lowerStr b.mint) &&
    b.tokenAccount ≠ b.userAccount && b.tokenAmount ≠ "0"

/-- The input of the `SolanaBalanceUpdater` Task built from one change. -/
structure TaskInput where
  tokenMint : String
  userAccount : String
  decimals : Int
deriving DecidableEq

/-- The dedup cache key used by the dispatch loop: it contains only the user
account, not the mint. -/
def cacheKey (b : TokenBalanceChange) : String :=
  "solana_balance_updater_" ++ b.userAccount

/-- The dispatch loop of `heliusWebhook`: skip changes whose cache key is
present, otherwise store the key, build the Task input and run the Task
synchronously; a failed Task answers 500 at once (dispatch stops).  The
cache is the list of keys present; `taskOk` tells whether the Task for an
input completes successfully.  Returns the dispatched Task inputs and
whether the loop completed without a failure. -/
def dispatchLoop (taskOk : TaskInput → Bool) :
    List String → List TokenBalanceChange → List TaskInput × Bool
  | _, [] => ([], true)
  | cache, b :: rest =>
    if cache.contains (cacheKey b) then dispatchLoop taskOk cache rest
    else
      let inp : TaskInput := ⟨b.mint, b.userAccount, b.decimals⟩
      if taskOk inp then
        let r := dispatchLoop taskOk (cacheKey b :: cache) rest
        (inp :: r.1, r.2)
      else ([inp], false)

/-- `heliusWebhook`: authenticate the Authorization header against the
configured auth key (401 on mismatch), filter the changes against the
tracked mints, and dispatch one Task per change that passes the user-keyed
cache. -/
def heliusWebhook (authToken configAuthKey : String) (tracked : List String)
    (cache : List String) (taskOk : TaskInput → Bool) (body : List TransferData) :
    Nat × List TaskInput :=
  if authToken ≠ configAuthKey then (401, [])
  else
    let r := dispatchLoop taskOk cache (tokenTransfers tracked body)
    (if r.2 then 200 else 500, r.1)

/-- The first change per not-yet-seen user account: the reference dispatch
set under a user-keyed dedup cache. -/
def firstPerUser (cache : List String) : List TokenBalanceChange → List TokenBalanceChange
  | [] => []
  | b :: rest =>
    if cache.contains (cacheKey b) then firstPerUser cache rest
    else b :: firstPerUser (cacheKey b :: cache) rest

end HeliusWebhook

namespace Task

variable {α β γ δ : Type}

theorem prepareRecords_length (cfg : OracleConfigM) (env : TaskEnv α β γ δ) (d : α) :
    (prepareRecords cfg env d).length = (collectedKeys cfg env).length := by
  simp [prepareRecords, collectedKeys]

/-- The collected peer keys are a sublist of the configured peer keys. -/
theorem zip_filterMap_keys_sublist :
    ∀ (ps : List Peer) (os : List (PeerOutcome α)),
      (((ps.zip os).filterMap fun po =>
        match po.2 with
        | .success d sig => some (⟨po.1.publicKey, ⟨d, some sig⟩⟩ : PrepRecord α)
        | _ => none).map (·.publicKey)).Sublist (ps.map (·.publicKey))
  | [], _ => by simp
  | _ :: _, [] => by simp
  | p :: ps, o :: os => by
    cases o with
    | success d sig =>
      simpa using (zip_filterMap_keys_sublist ps os).cons₂ p.publicKey
    | failure =>
      simpa using (zip_filterMap_keys_sublist ps os).cons p.publicKey
    | pending =>
      simpa using (zip_filterMap_keys_sublist ps os).cons p.publicKey

theorem peerRecords_keys_sublist (cfg : OracleConfigM) (env : TaskEnv α β γ δ) :
    ((peerRecords cfg env).map (·.publicKey)).Sublist (cfg.peers.map (·.publicKey)) :=
  zip_filterMap_keys_sublist cfg.peers env.peerOutcomes

/-- With pairwise distinct configured keys that differ from the node's own
key, the collected keys are pairwise distinct. -/
theorem collectedKeys_nodup (cfg : OracleConfigM) (env : TaskEnv α β γ δ)
    (h : (cfg.publicKey :: cfg.peers.map (·.publicKey)).Nodup) :
    (collectedKeys cfg env).Nodup := by
  rcases List.nodup_cons.mp h with ⟨hnotin, hnd⟩
  refine List.nodup_cons.mpr ⟨fun hmem => hnotin ?_, hnd.sublist (peerRecords_keys_sublist cfg env)⟩
  exact (peerRecords_keys_sublist cfg env).subset hmem

/-- Inversion of a successful prepare phase. -/
theorem runPreparePhase_ok_inv (cfg : OracleConfigM) (env : TaskEnv α β γ δ)
    (records : List (PrepRecord α)) (h : runPreparePhase cfg env = .ok records) :
    ∃ d, env.localPrepare = .ok d ∧ timedOut env = false ∧
      records = prepareRecords cfg env d ∧
      cfg.minSignaturesRequired ≤ records.length := by
  unfold runPreparePhase at h
  cases hl : env.localPrepare with
  | error e => rw [hl] at h; cases h
  | ok d =>
    rw [hl] at h
    by_cases ht : timedOut env
    · simp [ht] at h
    · simp only [ht, if_false, Bool.false_eq_true] at h
      by_cases hlen : (prepareRecords cfg env d).length < cfg.minSignaturesRequired
      · simp [hlen] at h
      · simp only [hlen, if_false] at h
        cases h
        exact ⟨d, rfl, by simp [ht], rfl, by omega⟩

end Task

/-- Claim C3: for every value x in the supported codec grammar (null, utf8
strings, numbers, booleans, big integers, byte blobs, timestamps, arrays of
such values, and string-keyed maps of such values), decode(encode(x)) is
structurally equal to x.  `Codec.wfVal` delimits the grammar: `undefined` is
excluded, counts and sizes fit the 32-bit length fields, and maps are in
their canonical key-sorted form (JS objects compare structurally regardless
of key order, and `encode` itself emits entries key-sorted). -/
theorem C3_codec_roundtrip (v : Codec.JsVal) (h : Codec.wfVal v = true) :
    Codec.decodeVal (Codec.encodeVal v) = some v :=
  Codec.decodeVal_encodeVal v h

/-- Concrete witness for C3: a two-key map exercising the natural key order
(key "a2" sorts before key "a10"), with a nested array of a null, a boolean,
a string and a negative bigint. -/
theorem C3_codec_roundtrip_witness :
    Codec.wfVal (Codec.JsVal.obj
      [([97, 50], Codec.JsVal.num 7),
       ([97, 49, 48], Codec.JsVal.arr
         [Codec.JsVal.nul, Codec.JsVal.boolean true,
          Codec.JsVal.str [104, 105], Codec.JsVal.bigint (-5)])]) = true ∧
    Codec.decodeVal (Codec.encodeVal (Codec.JsVal.obj
      [([97, 50], Codec.JsVal.num 7),
       ([97, 49, 48], Codec.JsVal.arr
         [Codec.JsVal.nul, Codec.JsVal.boolean true,
          Codec.JsVal.str [104, 105], Codec.JsVal.bigint (-5)])])) =
      some (Codec.JsVal.obj
      [([97, 50], Codec.JsVal.num 7),
       ([97, 49, 48], Codec.JsVal.arr
         [Codec.JsVal.nul, Codec.JsVal.boolean true,
          Codec.JsVal.str [104, 105], Codec.JsVal.bigint (-5)])]) := by
  have hwf : Codec.wfVal (Codec.JsVal.obj
      [([97, 50], Codec.JsVal.num 7),
       ([97, 49, 48], Codec.JsVal.arr
         [Codec.JsVal.nul, Codec.JsVal.boolean true,
          Codec.JsVal.str [104, 105], Codec.JsVal.bigint (-5)])]) = true := by
    simp [Codec.wfVal, Codec.wfElems, Codec.wfPairs, Codec.sortedKeys, Codec.natOrd,
      Codec.natOrdFuel, Codec.isDigitByte, Codec.digitsVal, Codec.encodeVal,
      Codec.encodeElems, Codec.encodePairs, Codec.sortFields, Codec.insertField,
      Codec.keyLe, Codec.u32be, Codec.intDecimal, Codec.natDecimal]
    all_goals decide
  exact ⟨hwf, C3_codec_roundtrip _ hwf⟩

/-- Claim C10: the codec collapses undefined into null at the public
interface: encode(undefined) and encode(null) produce the identical one-byte
encoding (marker 0), and decode of that encoding returns null, so
decode(encode(undefined)) equals null rather than undefined. -/
theorem C10_undefined_collapses_to_null :
    Codec.encodeVal Codec.JsVal.undef = Codec.encodeVal Codec.JsVal.nul ∧
    Codec.encodeVal Codec.JsVal.undef = [0] ∧
    Codec.decodeVal (Codec.encodeVal Codec.JsVal.undef) = some Codec.JsVal.nul := by
  refine ⟨by simp only [Codec.encodeVal], by simp only [Codec.encodeVal], ?_⟩
  rw [show Codec.encodeVal Codec.JsVal.undef = [0] from by simp only [Codec.encodeVal]]
  exact Codec.decodeVal_marker0 []


/-- Claim C1: for every Task, the Execute phase (plugin.execute) is invoked
only if the number of distinct public keys in the collected prepare records
(the local node's plus responding peers') is at least
config.minSignaturesRequired; when fewer prepares are collected (the local
prepare succeeded and the fan-out completed without the timer firing) the
Task fails with an insufficient_peers error before process or execute is
called.  The distinctness hypothesis is the configuration invariant that
peer public keys are pairwise distinct and differ from the node's own key. -/
theorem C1_quorum_gate {α β γ δ : Type} (cfg : Task.OracleConfigM)
    (env : Task.TaskEnv α β γ δ)
    (hkeys : (cfg.publicKey :: cfg.peers.map (·.publicKey)).Nodup) :
    ((Task.taskStart cfg env).executeInvoked = true →
      cfg.minSignaturesRequired ≤ ((Task.collectedKeys cfg env).dedup).length) ∧
    (∀ d : α, env.localPrepare = .ok d → Task.timedOut env = false →
      (Task.collectedKeys cfg env).length < cfg.minSignaturesRequired →
      (Task.taskStart cfg env).result =
        .error ⟨.insufficient_peers,
          some ("Only " ++ toString (Task.collectedKeys cfg env).length ++
            " peers available")⟩ ∧
      (Task.taskStart cfg env).processInvoked = false ∧
      (Task.taskStart cfg env).executeInvoked = false) := by
  have hdedup : (Task.collectedKeys cfg env).dedup = Task.collectedKeys cfg env :=
    List.dedup_eq_self.mpr (Task.collectedKeys_nodup cfg env hkeys)
  constructor
  · intro hexec
    cases hrp : Task.runPreparePhase cfg env with
    | error e =>
      have : (Task.taskStart cfg env).executeInvoked = false := by
        simp [Task.taskStart, hrp]
      rw [this] at hexec
      cases hexec
    | ok records =>
      obtain ⟨d, hl, ht, hrec, hmin⟩ := Task.runPreparePhase_ok_inv cfg env records hrp
      rw [hdedup]
      calc cfg.minSignaturesRequired ≤ records.length := hmin
        _ = (Task.collectedKeys cfg env).length := by
              rw [hrec, Task.prepareRecords_length]
  · intro d hl ht hlen
    have hlen2 : (Task.prepareRecords cfg env d).length < cfg.minSignaturesRequired := by
      rw [Task.prepareRecords_length]; exact hlen
    have hrp : Task.runPreparePhase cfg env =
        .error ⟨.insufficient_peers,
          some ("Only " ++ toString (Task.collectedKeys cfg env).length ++
            " peers available")⟩ := by
      unfold Task.runPreparePhase
      rw [hl]
      simp [ht, hlen2, hlen, Task.prepareRecords_length]
    refine ⟨?_, ?_, ?_⟩ <;> simp [Task.taskStart, hrp]

/-- Configuration fixture for the C1 witness: three nodes, quorum 3, only one
peer responded. -/
def cfgC1 : Task.OracleConfigM := ⟨"A", [⟨"B"⟩, ⟨"C"⟩], 3⟩

/-- Environment fixture for the C1 witness: peer B answered, peer C errored,
no RPC still pending when the race ended. -/
def envC1 : Task.TaskEnv Nat Nat Nat Nat :=
  { localPrepare := .ok 0
    peerOutcomes := [.success 1 "sigB", .failure]
    processResult := fun _ => .ok 5
    localValidate := fun _ _ => .ok (some 6)
    peerValidate := fun _ _ _ _ => .ok 7
    executeResult := fun _ => .ok 8 }

/-- Witness for C1 at a concrete input: two collected keys, quorum three,
so the task fails with insufficient_peers and neither process nor execute
runs. -/
theorem C1_quorum_gate_witness :
    (cfgC1.publicKey :: cfgC1.peers.map (·.publicKey)).Nodup ∧
    ((Task.taskStart cfgC1 envC1).result =
        .error ⟨.insufficient_peers, some "Only 2 peers available"⟩ ∧
      (Task.taskStart cfgC1 envC1).processInvoked = false ∧
      (Task.taskStart cfgC1 envC1).executeInvoked = false) := by
  refine ⟨by decide, ?_⟩
  have h := (C1_quorum_gate cfgC1 envC1 (by decide)).2 0 rfl rfl (by decide)
  simpa using h


/-- Configuration fixture for C2: three nodes, quorum 2. -/
def cfgC2 : Task.OracleConfigM := ⟨"A", [⟨"B"⟩, ⟨"C"⟩], 2⟩

/-- Environment fixture for C2: peer B answered before the timer, peer C was
still pending when the `peerTimeoutMs` timer fired. -/
def envC2 : Task.TaskEnv Nat Nat Nat Nat :=
  { localPrepare := .ok 0
    peerOutcomes := [.success 1 "sigB", .pending]
    processResult := fun _ => .ok 5
    localValidate := fun _ _ => .ok (some 6)
    peerValidate := fun _ _ _ _ => .ok 7
    executeResult := fun _ => .ok 8 }

/-- Counterexample to C2: the timer fired with two prepares collected (self
and B) and quorum 2 satisfied, yet the Task fails with a timeout error and
the process phase never runs — the code does not proceed with the arrived
prepares. -/
theorem C2_timeout_counterexample :
    (Task.collectedKeys cfgC2 envC2).length = 2 ∧
    cfgC2.minSignaturesRequired = 2 ∧
    Task.timedOut envC2 = true ∧
    (Task.taskStart cfgC2 envC2).result =
      .error ⟨.timeout, some "Prepare phase timed out"⟩ ∧
    (Task.taskStart cfgC2 envC2).processInvoked = false ∧
    (Task.taskStart cfgC2 envC2).executeInvoked = false :=
  ⟨rfl, rfl, rfl, rfl, rfl, rfl⟩

/-- Claim C2 as amended: when the prepare fan-out timer fires before all peer
prepare RPCs have completed, the Prepare phase fails the whole Task with a
timeout error no matter how many prepare results arrived; process and
execute are not called. -/
theorem C2_timeout_fails_task {α β γ δ : Type} (cfg : Task.OracleConfigM)
    (env : Task.TaskEnv α β γ δ) (d : α)
    (hlocal : env.localPrepare = .ok d) (ht : Task.timedOut env = true) :
    (Task.taskStart cfg env).result =
      .error ⟨.timeout, some "Prepare phase timed out"⟩ ∧
    (Task.taskStart cfg env).processInvoked = false ∧
    (Task.taskStart cfg env).executeInvoked = false := by
  have hrp : Task.runPreparePhase cfg env =
      .error ⟨.timeout, some "Prepare phase timed out"⟩ := by
    unfold Task.runPreparePhase
    rw [hlocal]
    simp [ht]
  refine ⟨?_, ?_, ?_⟩ <;> simp [Task.taskStart, hrp]

/-- Witness for the amended C2 at the concrete fixture. -/
theorem C2_timeout_fails_task_witness :
    envC2.localPrepare = .ok 0 ∧ Task.timedOut envC2 = true ∧
    (Task.taskStart cfgC2 envC2).result =
      .error ⟨.timeout, some "Prepare phase timed out"⟩ :=
  ⟨rfl, rfl, (C2_timeout_fails_task cfgC2 envC2 0 rfl rfl).1⟩

/-- Configuration fixture for C5: two nodes, quorum 1. -/
def cfgC5 : Task.OracleConfigM := ⟨"A", [⟨"B"⟩], 1⟩

/-- Environment fixture for C5: the fan-out completes (peer B errored, no RPC
pending), and the process phase reports non_error (event already handled
upstream). -/
def envC5 : Task.TaskEnv Nat Nat Nat Nat :=
  { localPrepare := .ok 0
    peerOutcomes := [.failure]
    processResult := fun _ => .error ⟨.non_error, some "Event already processed"⟩
    localValidate := fun _ _ => .ok (some 6)
    peerValidate := fun _ _ _ _ => .ok 7
    executeResult := fun _ => .ok 8 }

/-- Counterexample to C5: when process returns non_error, Task.start does not
report success — it returns the non_error as an error (execute is not called
and no metric is incremented, but the success part of the claim is false). -/
theorem C5_non_error_counterexample :
    (Task.taskStart cfgC5 envC5).result =
      .error ⟨.non_error, some "Event already processed"⟩ ∧
    (Task.taskStart cfgC5 envC5).executeInvoked = false ∧
    (Task.taskStart cfgC5 envC5).metricIncremented = false :=
  ⟨rfl, rfl, rfl⟩

/-- Claim C5 as amended: when the plugin's process phase returns a non_error
result, the Task propagates it as an error (it does not report success);
plugin.execute is not called and no completion metric is incremented; it is
the EVM listener run loop that treats the non_error result as
already-processed and continues instead of failing. -/
theorem C5_non_error_propagates {α β γ δ : Type} (cfg : Task.OracleConfigM)
    (env : Task.TaskEnv α β γ δ) (records : List (Task.PrepRecord α)) (ctx : Option String)
    (hrp : Task.runPreparePhase cfg env = .ok records)
    (hproc : env.processResult (Task.toProcessInput records) = .error ⟨.non_error, ctx⟩) :
    (Task.taskStart cfg env).result = .error ⟨.non_error, ctx⟩ ∧
    (Task.taskStart cfg env).executeInvoked = false ∧
    (Task.taskStart cfg env).metricIncremented = false ∧
    EVMListener.runLoopReaction (Task.taskStart cfg env).result = .skipEvent := by
  have h1 : Task.taskStart cfg env =
      { result := .error ⟨.non_error, ctx⟩, peerFanout := true, processInvoked := true
        localValidateInvoked := false, executeInvoked := false
        metricIncremented := false } := by
    unfold Task.taskStart
    rw [hrp]
    simp [hproc]
  rw [h1]
  refine ⟨rfl, rfl, rfl, ?_⟩
  simp [EVMListener.runLoopReaction]

/-- Witness for the amended C5 at the concrete fixture. -/
theorem C5_non_error_propagates_witness :
    Task.runPreparePhase cfgC5 envC5 = .ok [⟨"A", ⟨0, none⟩⟩] ∧
    (Task.taskStart cfgC5 envC5).result =
      .error ⟨.non_error, some "Event already processed"⟩ ∧
    EVMListener.runLoopReaction (Task.taskStart cfgC5 envC5).result = .skipEvent := by
  have h := C5_non_error_propagates cfgC5 envC5 [⟨"A", ⟨0, none⟩⟩]
    (some "Event already processed") rfl rfl
  exact ⟨rfl, h.1, h.2.2.2⟩

/-- Claim C6: if the local plugin.prepare returns a permanent_error, the Task
short-circuits to success with an empty output: no peer prepare RPC is
issued, and process, validate, and execute are never called. -/
theorem C6_permanent_error_short_circuit {α β γ δ : Type} (cfg : Task.OracleConfigM)
    (env : Task.TaskEnv α β γ δ) (ctx : Option String)
    (h : env.localPrepare = .error ⟨.permanent_error, ctx⟩) :
    (Task.taskStart cfg env).result = .ok none ∧
    (Task.taskStart cfg env).peerFanout = false ∧
    (Task.taskStart cfg env).processInvoked = false ∧
    (Task.taskStart cfg env).localValidateInvoked = false ∧
    (Task.taskStart cfg env).executeInvoked = false := by
  have hrp : Task.runPreparePhase cfg env = .error ⟨.permanent_error, ctx⟩ := by
    unfold Task.runPreparePhase
    rw [h]
  refine ⟨?_, ?_, ?_, ?_, ?_⟩ <;> simp [Task.taskStart, hrp, h]

/-- Environment fixture for the C6 witness: the local prepare reports a
permanent error before any peer call. -/
def envC6 : Task.TaskEnv Nat Nat Nat Nat :=
  { localPrepare := .error ⟨.permanent_error, some "structurally invalid input"⟩
    peerOutcomes := [.success 1 "sigB"]
    processResult := fun _ => .ok 5
    localValidate := fun _ _ => .ok (some 6)
    peerValidate := fun _ _ _ _ => .ok 7
    executeResult := fun _ => .ok 8 }

/-- Witness for C6 at a concrete input. -/
theorem C6_permanent_error_short_circuit_witness :
    envC6.localPrepare = .error ⟨.permanent_error, some "structurally invalid input"⟩ ∧
    (Task.taskStart cfgC5 envC6).result = .ok none ∧
    (Task.taskStart cfgC5 envC6).peerFanout = false ∧
    (Task.taskStart cfgC5 envC6).executeInvoked = false := by
  have h := C6_permanent_error_short_circuit cfgC5 envC6
    (some "structurally invalid input") rfl
  exact ⟨rfl, h.1, h.2.1, h.2.2.2.2⟩


/-- Plugin table fixture for C4: a single plugin "p" whose validate
succeeds. -/
def pluginsC4 : String →
    Option (Codec.JsVal → Codec.JsVal → Except Task.OracleErr Codec.JsVal) :=
  fun pid => if pid = "p" then some (fun _ _ => .ok Codec.JsVal.nul) else none

/-- Node configuration fixture for C4: a secondary node with its own key
pair, distinct from the primary's. -/
def cfgC4 : TaskValidateRoute.NodeConfig := ⟨Crypto.pubKeyOf "local"⟩

/-- Request fixture for C4: preparedData signed with the receiving node's own
private key (as `/task/prepare` does on that node), not the primary's. -/
def reqC4 : TaskValidateRoute.ValidateRequest :=
  ⟨"p", Codec.JsVal.nul, Codec.JsVal.boolean true,
    Crypto.signData (Codec.encodeVal (Codec.JsVal.boolean true)) "local"⟩

/-- Counterexample to C4: the carried signature does not verify under the
primary's public key, yet the route accepts the request and runs the
plugin — verification uses the node's own configured key, not the
primary's. -/
theorem C4_validate_key_counterexample :
    Crypto.verifySignature (Codec.encodeVal reqC4.preparedData) reqC4.signature
      (Crypto.pubKeyOf "primary") = false ∧
    (TaskValidateRoute.taskValidate cfgC4 pluginsC4 reqC4).2 = true ∧
    (TaskValidateRoute.taskValidate cfgC4 pluginsC4 reqC4).1.status = 200 := by
  refine ⟨?_, ?_, ?_⟩
  · simp only [reqC4, Crypto.verifySignature, Crypto.signData]
    simp [Crypto.pubKeyOf]
  · simp [TaskValidateRoute.taskValidate, reqC4, cfgC4, pluginsC4,
      Crypto.verifySignature, Crypto.signData]
  · simp [TaskValidateRoute.taskValidate, reqC4, cfgC4, pluginsC4,
      Crypto.verifySignature, Crypto.signData]

/-- Claim C4 as amended: the `/task/validate` route verifies the carried
signature against the SHA-256 of the codec-encoding of the request's
preparedData under the receiving node's own configured public key (not the
primary's); when that verification fails it responds 400 with error
"Invalid signature" and the plugin's validate is never invoked. -/
theorem C4_validate_rejects_bad_signature (cfg : TaskValidateRoute.NodeConfig)
    (plugins : String →
      Option (Codec.JsVal → Codec.JsVal → Except Task.OracleErr Codec.JsVal))
    (req : TaskValidateRoute.ValidateRequest)
    (h : Crypto.verifySignature (Codec.encodeVal req.preparedData) req.signature
      cfg.publicKey = false) :
    (TaskValidateRoute.taskValidate cfg plugins req).1.status = 400 ∧
    (TaskValidateRoute.taskValidate cfg plugins req).1.error = some "Invalid signature" ∧
    (TaskValidateRoute.taskValidate cfg plugins req).2 = false := by
  unfold TaskValidateRoute.taskValidate
  simp [h]

/-- Request fixture for the C4 witness: a signature produced with a key whose
public counterpart is not the receiving node's configured key. -/
def reqC4bad : TaskValidateRoute.ValidateRequest :=
  ⟨"p", Codec.JsVal.nul, Codec.JsVal.boolean true,
    Crypto.signData (Codec.encodeVal (Codec.JsVal.boolean true)) "other"⟩

/-- Witness for the amended C4 at a concrete input. -/
theorem C4_validate_rejects_bad_signature_witness :
    Crypto.verifySignature (Codec.encodeVal reqC4bad.preparedData) reqC4bad.signature
      cfgC4.publicKey = false ∧
    (TaskValidateRoute.taskValidate cfgC4 pluginsC4 reqC4bad).1.status = 400 ∧
    (TaskValidateRoute.taskValidate cfgC4 pluginsC4 reqC4bad).2 = false := by
  have h : Crypto.verifySignature (Codec.encodeVal reqC4bad.preparedData)
      reqC4bad.signature cfgC4.publicKey = false := by
    simp only [reqC4bad, cfgC4, Crypto.verifySignature, Crypto.signData]
    simp [Crypto.pubKeyOf]
  have h2 := C4_validate_rejects_bad_signature cfgC4 pluginsC4 reqC4bad h
  exact ⟨h, h2.1, h2.2.2⟩

/-- Claim C7, evaluated at the failing inputs: `ERC20Forwarder.execute`
converts a 409 duplicate to success as documented, but it also converts
every other HTTP status at or above 400 except 499 (here: 500) to success;
only 499 and status-less transport errors become execute_error.  The claim
(and the code's own comment) say the 409 duplicate is the only conversion,
so the 500 case is the code bug. -/
theorem C7_execute_status_conversion :
    ERC20Forwarder.execute (.error ⟨some 409, some "Transaction already in database"⟩) =
      .ok true ∧
    ERC20Forwarder.execute (.error ⟨some 500, some "boom"⟩) = .ok true ∧
    ERC20Forwarder.execute (.error ⟨some 499, none⟩) =
      .error ⟨.execute_error, some "Unknown error"⟩ ∧
    ERC20Forwarder.execute (.error ⟨none, some "connect refused"⟩) =
      .error ⟨.execute_error, some "connect refused"⟩ :=
  ⟨rfl, rfl, rfl, rfl⟩


/-- Counterexample to C8: two consecutive 429 responses are retried twice at
one call site (sleeping 1000 ms then 2000 ms) before the third call
succeeds — the retry is not bounded to one per call site, and the first
sleep is the already-doubled 1000 ms. -/
theorem C8_retry_counterexample :
    Throttler.executeWithRetry (τ := Nat) Throttler.initialState
      [.rateLimited, .rateLimited, .success 0] =
      (⟨1, 2000⟩, [1000, 2000], .returned 0) := rfl

/-- `min` distributes over the capped doubling: multiplying an
already-capped backoff keeps the cap. -/
theorem min_mul_min (m x c : Nat) (hm : 0 < m) : min (m * min x c) c = min (m * x) c := by
  by_cases h : x ≤ c
  · rw [min_eq_left h]
  · rw [min_eq_right (le_of_not_le h)]
    rw [min_eq_right (Nat.le_mul_of_pos_left c hm),
      min_eq_right (le_trans (le_of_not_le h) (Nat.le_mul_of_pos_left x hm))]

/-- Claim C8 as amended: on an HTTP 429 the helper doubles the backoff
(capped at 15000 ms), sleeps that long and retries the call, repeating
without bound until the call succeeds or throws a non-429 error; a non-429
error propagates to the caller immediately with no sleep.  After `k`
consecutive 429s followed by a success the sleeps are
`min (2^(i+1) * backoff) 15000` for `i < k` — doubling each time from the
current backoff state (500 ms on a fresh throttler). -/
theorem C8_retry_unbounded_doubling {τ : Type} :
    (∀ (s : Throttler.State) (rest : List (Throttler.CallOutcome τ)),
      Throttler.executeWithRetry s (.failure :: rest) = (s, [], .threw)) ∧
    (∀ (s : Throttler.State) (k : Nat) (t : τ),
      (Throttler.executeWithRetry s
        (List.replicate k .rateLimited ++ [.success t])).2.1 =
        (List.range k).map (fun i => min (2 ^ (i + 1) * s.backoffMs) 15000) ∧
      (Throttler.executeWithRetry s
        (List.replicate k .rateLimited ++ [.success t])).2.2 = .returned t) := by
  constructor
  · intro s rest
    rfl
  · intro s k t
    induction k generalizing s with
    | zero => simp [Throttler.executeWithRetry]
    | succ k ih =>
      obtain ⟨ihs, iho⟩ :=
        ih ⟨s.consecutiveErrors + 1, min (s.backoffMs * 2) Throttler.maxBackoffMs⟩
      rw [List.replicate_succ, List.cons_append]
      constructor
      · simp only [Throttler.executeWithRetry]
        rw [ihs]
        rw [List.range_succ_eq_map, List.map_cons, List.map_map]
        congr 1
        · unfold Throttler.maxBackoffMs
          congr 1
          ring
        · apply List.map_congr_left
          intro i _
          show min (2 ^ (i + 1) * min (s.backoffMs * 2) Throttler.maxBackoffMs) 15000 =
            min (2 ^ (Nat.succ i + 1) * s.backoffMs) 15000
          unfold Throttler.maxBackoffMs
          rw [min_mul_min _ _ _ (Nat.pos_pow_of_pos _ (by norm_num))]
          congr 1
          rw [Nat.succ_eq_add_one]
          ring
      · simp only [Throttler.executeWithRetry]
        exact iho


/-- Payload fixture for C9: one webhook event carrying two token balance
changes for the same user account but two different tracked mints. -/
def bodyC9 : List HeliusWebhook.TransferData :=
  [⟨[⟨[⟨"M1", "5", 6, "ta1", "U"⟩, ⟨"M2", "7", 6, "ta2", "U"⟩]⟩]⟩]

/-- Tracked-mint fixture for C9. -/
def trackedC9 : List String := ["M1", "M2"]

/-- Counterexample to C9: both changes pass the filters and form two distinct
(mint, userAccount) pairs, yet only one Task is dispatched, because the
dedup cache key contains only the user account. -/
theorem C9_dedup_counterexample :
    (HeliusWebhook.tokenTransfers trackedC9 bodyC9).length = 2 ∧
    ((HeliusWebhook.tokenTransfers trackedC9 bodyC9).map
      (fun b => (b.mint, b.userAccount))).dedup.length = 2 ∧
    (HeliusWebhook.heliusWebhook "k" "k" trackedC9 [] (fun _ => true) bodyC9).2 =
      [⟨"M1", "U", 6⟩] := by
  refine ⟨by decide, by decide, by decide⟩

/-- The dispatch loop with all Tasks succeeding dispatches exactly the first
change per not-yet-seen user account. -/
theorem dispatchLoop_eq_firstPerUser (fs : List HeliusWebhook.TokenBalanceChange) :
    ∀ cache : List String,
      HeliusWebhook.dispatchLoop (fun _ => true) cache fs =
        ((HeliusWebhook.firstPerUser cache fs).map
          (fun b => ⟨b.mint, b.userAccount, b.decimals⟩), true) := by
  induction fs with
  | nil => intro cache; rfl
  | cons b rest ih =>
    intro cache
    by_cases h : HeliusWebhook.cacheKey b ∈ cache
    · simp [HeliusWebhook.dispatchLoop, HeliusWebhook.firstPerUser, h, ih cache]
    · simp [HeliusWebhook.dispatchLoop, HeliusWebhook.firstPerUser, h,
        ih (HeliusWebhook.cacheKey b :: cache)]

/-- Every change picked by `firstPerUser` has a cache key outside the initial
cache. -/
theorem firstPerUser_not_in_cache (fs : List HeliusWebhook.TokenBalanceChange) :
    ∀ (cache : List String) (b : HeliusWebhook.TokenBalanceChange),
      b ∈ HeliusWebhook.firstPerUser cache fs → HeliusWebhook.cacheKey b ∉ cache := by
  induction fs with
  | nil => intro cache b hb; cases hb
  | cons c rest ih =>
    intro cache b hb
    by_cases h : cache.contains (HeliusWebhook.cacheKey c)
    · rw [HeliusWebhook.firstPerUser, if_pos h] at hb
      exact ih cache b hb
    · rw [HeliusWebhook.firstPerUser, if_neg h] at hb
      rcases List.mem_cons.mp hb with rfl | hb2
      · intro hmem
        exact h (by simpa using hmem)
      · intro hmem
        exact ih (HeliusWebhook.cacheKey c :: cache) b hb2 (List.mem_cons_of_mem _ hmem)

/-- The cache keys of the changes picked by `firstPerUser` are pairwise
distinct. -/
theorem firstPerUser_keys_nodup (fs : List HeliusWebhook.TokenBalanceChange) :
    ∀ cache : List String,
      ((HeliusWebhook.firstPerUser cache fs).map HeliusWebhook.cacheKey).Nodup := by
  induction fs with
  | nil => intro cache; simp [HeliusWebhook.firstPerUser]
  | cons c rest ih =>
    intro cache
    by_cases h : cache.contains (HeliusWebhook.cacheKey c)
    · rw [HeliusWebhook.firstPerUser, if_pos h]
      exact ih cache
    · rw [HeliusWebhook.firstPerUser, if_neg h]
      rw [List.map_cons, List.nodup_cons]
      refine ⟨?_, ih (HeliusWebhook.cacheKey c :: cache)⟩
      intro hmem
      rcases List.mem_map.mp hmem with ⟨b, hb, hkey⟩
      have := firstPerUser_not_in_cache rest (HeliusWebhook.cacheKey c :: cache) b hb
      exact this (by rw [hkey]; exact List.mem_cons_self _ _)

/-- Claim C9 as amended: for every accepted /helius/webhook request, one Task
is dispatched per distinct userAccount among the filtered token-balance
changes (the first change seen for each user, so the mint of that first
change), because the dedup cache key is `solana_balance_updater_` plus the
user account alone; a user account already present in the cache dispatches
no Task at all, whatever the mint.  Stated for runs in which every
dispatched Task succeeds. -/
theorem C9_user_keyed_dedup (cache : List String)
    (fs : List HeliusWebhook.TokenBalanceChange) :
    ((HeliusWebhook.dispatchLoop (fun _ => true) cache fs).1.map
      (·.userAccount)).Nodup ∧
    ((HeliusWebhook.dispatchLoop (fun _ => true) cache fs).1.map
      (fun inp => "solana_balance_updater_" ++ inp.userAccount)).Nodup ∧
    (∀ inp ∈ (HeliusWebhook.dispatchLoop (fun _ => true) cache fs).1,
      ("solana_balance_updater_" ++ inp.userAccount) ∉ cache) ∧
    (HeliusWebhook.dispatchLoop (fun _ => true) cache fs).1 =
      (HeliusWebhook.firstPerUser cache fs).map
        (fun b => ⟨b.mint, b.userAccount, b.decimals⟩) := by
  have hdl := dispatchLoop_eq_firstPerUser fs cache
  have hkeys :
      ((HeliusWebhook.dispatchLoop (fun _ => true) cache fs).1.map
        (fun inp => "solana_balance_updater_" ++ inp.userAccount)).Nodup := by
    rw [hdl]
    rw [List.map_map]
    have : ((fun inp : HeliusWebhook.TaskInput =>
        "solana_balance_updater_" ++ inp.userAccount) ∘
        (fun b : HeliusWebhook.TokenBalanceChange =>
          (⟨b.mint, b.userAccount, b.decimals⟩ : HeliusWebhook.TaskInput))) =
        HeliusWebhook.cacheKey := by
      funext b
      rfl
    rw [this]
    exact firstPerUser_keys_nodup fs cache
  refine ⟨?_, hkeys, ?_, by rw [hdl]⟩
  · have : ((HeliusWebhook.dispatchLoop (fun _ => true) cache fs).1.map
        (fun inp => "solana_balance_updater_" ++ inp.userAccount)) =
        ((HeliusWebhook.dispatchLoop (fun _ => true) cache fs).1.map
          (·.userAccount)).map (fun u => "solana_balance_updater_" ++ u) := by
      rw [List.map_map]
      rfl
    rw [this] at hkeys
    exact List.Nodup.of_map _ hkeys
  · intro inp hinp
    rw [hdl] at hinp
    rcases List.mem_map.mp hinp with ⟨b, hb, rfl⟩
    exact firstPerUser_not_in_cache fs cache b hb
